import Mathlib

/-!
Verification of the speaker-diarization core of the PA2_CCAI repository
(src/audio/simple_speaker_diarization.py, src/audio/diarization_processor.py,
src/audio/summarization_client.py, src/audio/processor.py), as a shallow
embedding in Lean 4.

Python floats are modelled as rationals.  Calls into external libraries
(webrtcvad, sklearn KMeans and StandardScaler, sklearn silhouette_score,
scipy euclidean, librosa feature routines) are modelled as explicit oracle
parameters; all control flow, arithmetic and list manipulation of the
repository itself is translated directly from the source.
-/

set_option maxRecDepth 8000

namespace PA2

/-- SpeakerSegment dictionary built by SimpleSpeakerDiarizer._create_segments:
keys start, end, speaker, duration.  The end key is called stop here because
end is a Lean keyword. -/
structure Seg where
  start : ℚ
  stop : ℚ
  speaker : String
  duration : ℚ
  deriving DecidableEq, Repr

/-- Comparison used by sorted(segments, key=lambda x: x[start]) in
_smooth_speaker_transitions.  Python sorting is stable, and a stable sort by
this key is unique, so List.insertionSort (which is stable) computes the same
list as Python sorted. -/
def segLE (a b : Seg) : Prop := a.start ≤ b.start

instance : DecidableRel segLE := fun a b =>
  inferInstanceAs (Decidable (a.start ≤ b.start))

instance : IsTotal Seg segLE := ⟨fun a b => le_total a.start b.start⟩

instance : IsTrans Seg segLE := ⟨fun _ _ _ h1 h2 => le_trans h1 h2⟩

/-- First while loop of _smooth_speaker_transitions (lines 295-311): while the
segment at position i and its successor have the same speaker and the gap
between them is less than 0.5 s, extend the current segment to the
successor's end, recompute its duration, and pop the successor (the index i
does not advance); otherwise advance i. -/
def mergePass : List Seg → List Seg
  | [] => []
  | [a] => [a]
  | a :: b :: rest =>
    if a.speaker = b.speaker ∧ b.start - a.stop < 1/2 then
      mergePass ({ a with stop := b.stop, duration := b.stop - a.start } :: rest)
    else
      a :: mergePass (b :: rest)
termination_by l => l.length

/-- Second while loop of _smooth_speaker_transitions (lines 314-337), written
as a zipper: p is the segment at position i-1, acc the reversed prefix before
it, and the last argument the suffix starting at position i.  The Python loop
runs while i < len - 1, that is while the suffix has at least two elements.
A short interior segment whose neighbours share a speaker different from its
own is relabelled; if additionally both closeness conditions hold, the three
segments are merged into the left neighbour and the index does not move.
In the source the relabelling is done before the merge test; since it only
changes the speaker field and the merge test reads only end fields, the
relabelled record is inlined at its two use sites here. -/
def relabelPass (p : Seg) (acc : List Seg) : List Seg → List Seg
  | c :: n :: rest =>
    if c.duration < 1 ∧ p.speaker = n.speaker ∧ p.speaker ≠ c.speaker then
      if n.start - c.stop < 3/10 ∧ c.stop - p.stop < 3/10 then
        relabelPass { p with stop := n.stop, duration := n.stop - p.start } acc rest
      else
        relabelPass { c with speaker := p.speaker } (p :: acc) (n :: rest)
    else
      relabelPass c (p :: acc) (n :: rest)
  | rest => (p :: acc).reverse ++ rest
termination_by l => l.length

/-- SimpleSpeakerDiarizer._smooth_speaker_transitions (lines 286-339) with its
default min_duration = 1.0 s.  Inputs with at most two segments are returned
unchanged; otherwise the list is sorted by start, the merge loop runs, and
the relabel loop runs only when at least three segments remain. -/
def smoothTransitions (segments : List Seg) : List Seg :=
  if segments.length ≤ 2 then segments
  else
    let merged := mergePass (List.insertionSort segLE segments)
    match merged with
    | [] => []
    | m :: ms => if 3 ≤ (m :: ms).length then relabelPass m [] ms else m :: ms

/-- Condition under which the first smoothing loop leaves a list untouched:
no adjacent pair has the same speaker with a gap below 0.5 s. -/
def noAdjacentMerge : List Seg → Prop
  | a :: b :: rest =>
    ¬(a.speaker = b.speaker ∧ b.start - a.stop < 1/2) ∧ noAdjacentMerge (b :: rest)
  | _ => True

/-- Condition under which the second smoothing loop leaves a list untouched:
no interior segment is shorter than 1.0 s while being flanked by two segments
of one common speaker different from its own. -/
def noShortSandwich : List Seg → Prop
  | p :: c :: n :: rest =>
    ¬(c.duration < 1 ∧ p.speaker = n.speaker ∧ p.speaker ≠ c.speaker) ∧
      noShortSandwich (c :: n :: rest)
  | _ => True

theorem mergePass_of_noAdjacentMerge :
    ∀ l : List Seg, noAdjacentMerge l → mergePass l = l := by
  intro l
  induction l with
  | nil => intro _; simp [mergePass]
  | cons a tail ih =>
    cases tail with
    | nil => intro _; simp [mergePass]
    | cons b rest =>
      intro h
      rw [mergePass, if_neg h.1]
      exact congrArg (a :: ·) (ih h.2)

theorem relabelPass_of_noShortSandwich :
    ∀ (rest : List Seg) (p : Seg) (acc : List Seg), noShortSandwich (p :: rest) →
      relabelPass p acc rest = (p :: acc).reverse ++ rest := by
  intro rest
  induction rest with
  | nil => intro p acc _; simp [relabelPass]
  | cons c tail ih =>
    intro p acc h
    cases tail with
    | nil => simp [relabelPass]
    | cons n rest2 =>
      rw [relabelPass, if_neg h.1]
      rw [ih c (p :: acc) h.2]
      simp

/-- Fixed points of smoothTransitions: a sorted list in which neither loop has
anything to do is returned unchanged. -/
theorem smoothTransitions_fixed (s : List Seg) (hs : List.Sorted segLE s)
    (h1 : noAdjacentMerge s) (h2 : noShortSandwich s) :
    smoothTransitions s = s := by
  match s with
  | [] => rfl
  | [a] => rfl
  | [a, b] => rfl
  | a :: b :: c :: rest =>
    have hlen : ¬(a :: b :: c :: rest).length ≤ 2 := by simp
    unfold smoothTransitions
    rw [if_neg hlen, List.Sorted.insertionSort_eq hs,
      mergePass_of_noAdjacentMerge _ h1]
    have h3 : 3 ≤ (a :: b :: c :: rest).length := by simp
    show (if 3 ≤ (a :: b :: c :: rest).length then
        relabelPass a [] (b :: c :: rest) else a :: b :: c :: rest) = _
    rw [if_pos h3, relabelPass_of_noShortSandwich _ a [] h2]
    simp

/-- Input on which smoothing is not idempotent: the middle segment is
relabelled to SPEAKER_0 by the second loop without being merged (gaps are
0.4 s, at least 0.3 s), and only a second run merges the three resulting
SPEAKER_0 segments whose gaps are below 0.5 s. -/
def cexC2 : List Seg :=
  [⟨0, 2, "SPEAKER_0", 2⟩, ⟨12/5, 29/10, "SPEAKER_1", 1/2⟩,
   ⟨33/10, 5, "SPEAKER_0", 17/10⟩]

/-- C2 counterexample: _smooth_speaker_transitions is not idempotent; on cexC2
a second application merges what the first application only relabelled. -/
theorem claim_C2_counterexample :
    smoothTransitions (smoothTransitions cexC2) ≠ smoothTransitions cexC2 := by
  with_unfolding_all decide

/-- C2 amended: smoothing is idempotent only when its first output is left
untouched by both loops, i.e. when the output is sorted, has no adjacent
same-speaker pair with a gap below 0.5 s, and no short interior segment
flanked by one common other speaker.  (The counterexample cexC2 violates the
second condition: its first output has equal speakers 0.4 s apart.) -/
theorem claim_C2_theorem (l : List Seg)
    (hs : List.Sorted segLE (smoothTransitions l))
    (h1 : noAdjacentMerge (smoothTransitions l))
    (h2 : noShortSandwich (smoothTransitions l)) :
    smoothTransitions (smoothTransitions l) = smoothTransitions l :=
  smoothTransitions_fixed (smoothTransitions l) hs h1 h2

/-- Well-separated input used as witness data for the amended C2 and C6. -/
def witC2 : List Seg :=
  [⟨0, 2, "SPEAKER_0", 2⟩, ⟨3, 5, "SPEAKER_1", 2⟩, ⟨6, 8, "SPEAKER_0", 2⟩]

theorem claim_C2_witness :
    smoothTransitions (smoothTransitions witC2) = smoothTransitions witC2 := by
  apply claim_C2_theorem witC2
  · show List.Sorted segLE (smoothTransitions witC2)
    unfold segLE
    with_unfolding_all decide
  · have hev : smoothTransitions witC2 = witC2 := by with_unfolding_all decide
    rw [hev]
    refine ⟨?_, ?_, trivial⟩ <;> norm_num [noAdjacentMerge]
  · have hev : smoothTransitions witC2 = witC2 := by with_unfolding_all decide
    rw [hev]
    refine ⟨?_, trivial⟩
    norm_num [noShortSandwich]

theorem mergePass_starts_sublist (l : List Seg) :
    ((mergePass l).map Seg.start).Sublist (l.map Seg.start) := by
  induction l using mergePass.induct with
  | case1 => simp [mergePass]
  | case2 a => simp [mergePass]
  | case3 a b rest hcond ih =>
    rw [mergePass, if_pos hcond]
    refine ih.trans ?_
    simp only [List.map_cons]
    exact (List.Sublist.cons₂ a.start (List.sublist_cons_self b.start _))
  | case4 a b rest hcond ih =>
    rw [mergePass, if_neg hcond]
    simp only [List.map_cons]
    exact ih.cons₂ a.start

theorem relabelPass_starts_sublist :
    ∀ (rest : List Seg) (p : Seg) (acc : List Seg),
      ((relabelPass p acc rest).map Seg.start).Sublist
        (((p :: acc).reverse ++ rest).map Seg.start) := by
  intro rest p acc
  induction p, acc, rest using relabelPass.induct with
  | case1 p acc c n rest hcond hmerge ih =>
    rw [relabelPass, if_pos hcond, if_pos hmerge]
    refine ih.trans ?_
    simp only [List.map_append, List.map_reverse, List.map_cons, List.reverse_cons]
    refine List.Sublist.append (List.Sublist.refl _) ?_
    exact (List.sublist_cons_self _ _).trans
      ((List.sublist_cons_self _ _).cons₂ _)
  | case2 p acc c n rest hcond hmerge ih =>
    rw [relabelPass, if_pos hcond, if_neg hmerge]
    refine ih.trans ?_
    simp
  | case3 p acc c n rest hcond ih =>
    rw [relabelPass, if_neg hcond]
    refine ih.trans ?_
    simp
  | case4 p acc rest h =>
    rw [relabelPass.eq_def]
    split
    · exact absurd rfl (h _ _ _)
    · exact List.Sublist.refl _

/-- Input of two out-of-order segments: smoothing returns it unchanged. -/
def cexC6a : List Seg := [⟨5, 6, "SPEAKER_0", 1⟩, ⟨0, 1, "SPEAKER_0", 1⟩]

/-- Sorted three-segment input in which the middle zero-duration segment is
relabelled but neither merged nor dropped. -/
def cexC6b : List Seg :=
  [⟨0, 2, "SPEAKER_0", 2⟩, ⟨5, 5, "SPEAKER_1", 0⟩, ⟨10, 12, "SPEAKER_0", 2⟩]

/-- C6 counterexample: a two-element unsorted input is returned unchanged, so
the output is not sorted by start; and on a sorted three-element input a
zero-duration entry survives smoothing. -/
theorem claim_C6_counterexample :
    ¬List.Pairwise (fun a b : ℚ => a ≤ b)
        ((smoothTransitions cexC6a).map Seg.start) ∧
      Seg.mk 5 5 "SPEAKER_0" 0 ∈ smoothTransitions cexC6b := by
  constructor
  · with_unfolding_all decide
  · with_unfolding_all decide

/-- C6 amended: only for inputs with more than two segments is the output of
_smooth_speaker_transitions sorted ascending by start time; inputs with at
most two segments are returned unchanged (hence possibly unsorted), and
zero-duration entries are not removed in either case. -/
theorem claim_C6_theorem (l : List Seg) (h : 2 < l.length) :
    List.Pairwise (fun a b : ℚ => a ≤ b)
      ((smoothTransitions l).map Seg.start) := by
  have hlen : ¬l.length ≤ 2 := Nat.not_le_of_lt h
  have hsorted : List.Sorted segLE (List.insertionSort segLE l) :=
    List.sorted_insertionSort segLE l
  have hpair : List.Pairwise (fun a b : ℚ => a ≤ b)
      ((List.insertionSort segLE l).map Seg.start) :=
    List.pairwise_map.mpr hsorted
  have hmerge := mergePass_starts_sublist (List.insertionSort segLE l)
  unfold smoothTransitions
  rw [if_neg hlen]
  cases hm : mergePass (List.insertionSort segLE l) with
  | nil => simp
  | cons m ms =>
    rw [hm] at hmerge
    by_cases h3 : 3 ≤ (m :: ms).length
    · show List.Pairwise _ ((if 3 ≤ (m :: ms).length then relabelPass m [] ms
        else m :: ms).map Seg.start)
      rw [if_pos h3]
      have hrel := relabelPass_starts_sublist ms m []
      simp only [List.reverse_cons, List.reverse_nil, List.nil_append,
        List.singleton_append] at hrel
      exact List.Pairwise.sublist (hrel.trans hmerge) hpair
    · show List.Pairwise _ ((if 3 ≤ (m :: ms).length then relabelPass m [] ms
        else m :: ms).map Seg.start)
      rw [if_neg h3]
      exact List.Pairwise.sublist hmerge hpair

theorem claim_C6_witness :
    List.Pairwise (fun a b : ℚ => a ≤ b)
      ((smoothTransitions witC2).map Seg.start) :=
  claim_C6_theorem witC2 (by norm_num [witC2])

/-! DiarizationProcessor._assign_speakers_to_whisper_segments
(src/audio/diarization_processor.py, lines 230-302).  Whisper segments and
speaker segments are Python dicts; a field of value none models an absent
key.  Reading with .get(key, default) is Option.getD; subscript reading,
which raises KeyError on an absent key, is getKey in the Except monad.  The
body of the source method is wrapped in try/except returning [] on any
exception, which the outer function models with a match. -/

/-- Whisper segment dict: keys start, end (stop), text, each possibly
absent; the source reads them with .get and a default. -/
structure WhisperDict where
  start : Option ℚ
  stop : Option ℚ
  text : Option String
  deriving DecidableEq, Repr

/-- Speaker segment dict: keys start, end (stop), speaker; the source reads
them with subscripting, which raises on an absent key. -/
structure SpeakerDict where
  start : Option ℚ
  stop : Option ℚ
  speaker : Option String
  deriving DecidableEq, Repr

/-- Labeled output segment of the aligner. -/
structure LabeledSeg where
  start : ℚ
  stop : ℚ
  speaker : String
  text : String
  duration : ℚ
  deriving DecidableEq, Repr

/-- Python dict subscripting: raises KeyError when the key is absent. -/
def getKey : Option α → Except Unit α
  | some a => .ok a
  | none => .error ()

/-- Overlap of the whisper window with a speaker segment:
max(0, min(ends) - max(starts)). -/
def ovl (wstart wstop s e : ℚ) : ℚ := max 0 (min wstop e - max wstart s)

/-- Distance from the whisper window to a speaker segment: gap to the nearer
boundary, 0 on overlap. -/
def distTo (wstart wstop s e : ℚ) : ℚ :=
  if wstop < s then s - wstop else if e < wstart then wstart - e else 0

/-- Comparison dist < nearest_dist where nearest_dist starts as float inf,
modelled by none. -/
def ndLT (dist : ℚ) : Option ℚ → Prop
  | none => True
  | some d => dist < d

instance (dist : ℚ) : (nd : Option ℚ) → Decidable (ndLT dist nd)
  | none => isTrue trivial
  | some d => inferInstanceAs (Decidable (dist < d))

/-- Comparison nearest_dist > 2.0 where nearest_dist may still be inf. -/
def gt2 : Option ℚ → Prop
  | none => True
  | some d => 2 < d

instance : (nd : Option ℚ) → Decidable (gt2 nd)
  | none => isTrue trivial
  | some d => inferInstanceAs (Decidable (2 < d))

/-- Python falsiness of the best_speaker variable: None and the empty string
are falsy. -/
def isFalsy (b : Option String) : Prop := b = none ∨ b = some ""

instance : DecidablePred isFalsy := fun b =>
  inferInstanceAs (Decidable (b = none ∨ b = some ""))

/-- First loop over speaker_segments: track the speaker with maximal strictly
positive overlap; the speaker key is read only when the overlap improves. -/
def overlapLoop (wstart wstop : ℚ) :
    List SpeakerDict → Option String × ℚ → Except Unit (Option String × ℚ)
  | [], acc => .ok acc
  | ss :: rest, (best, bestOv) => do
    let s ← getKey ss.start
    let e ← getKey ss.stop
    let ov := ovl wstart wstop s e
    if bestOv < ov then
      let sp ← getKey ss.speaker
      overlapLoop wstart wstop rest (some sp, ov)
    else
      overlapLoop wstart wstop rest (best, bestOv)

/-- Second loop over speaker_segments (only reached when no positive overlap
was found): track the nearest speaker segment; the end key is read only when
the first branch of the distance computation does not apply, and the speaker
key only when the distance improves. -/
def nearestLoop (wstart wstop : ℚ) :
    List SpeakerDict → Option ℚ × Option String → Except Unit (Option ℚ × Option String)
  | [], acc => .ok acc
  | ss :: rest, (nd, best) => do
    let s ← getKey ss.start
    let dist ←
      if wstop < s then
        pure (s - wstop)
      else do
        let e ← getKey ss.stop
        pure (if e < wstart then wstart - e else 0)
    if ndLT dist nd then
      let sp ← getKey ss.speaker
      nearestLoop wstart wstop rest (some dist, some sp)
    else
      nearestLoop wstart wstop rest (nd, best)

/-- Body of the for loop over whisper_segments: returns none for a segment
skipped because its trimmed text is empty, and otherwise the labeled
segment. -/
def assignOne (sss : List SpeakerDict) (ws : WhisperDict) :
    Except Unit (Option LabeledSeg) := do
  let wstart := ws.start.getD 0
  let wstop := ws.stop.getD 0
  let wtext := (ws.text.getD "").trim
  if wtext = "" then
    return none
  let r ← overlapLoop wstart wstop sss (none, 0)
  let best1 ←
    if isFalsy r.1 ∧ sss ≠ [] then do
      let r2 ← nearestLoop wstart wstop sss (none, r.1)
      pure (if gt2 r2.1 then some "SPEAKER_0" else r2.2)
    else
      pure r.1
  let speaker := if isFalsy best1 then "SPEAKER_0" else best1.getD ""
  return some
    { start := wstart, stop := wstop, speaker := speaker, text := wtext,
      duration := wstop - wstart }

/-- The for loop over whisper_segments, collecting labeled segments. -/
def assignLoop (sss : List SpeakerDict) : List WhisperDict → Except Unit (List LabeledSeg)
  | [] => .ok []
  | ws :: rest => do
    let r ← assignOne sss ws
    let tail ← assignLoop sss rest
    match r with
    | none => pure tail
    | some seg => pure (seg :: tail)

/-- Sort key of result_segments.sort(key=lambda x: x[start]); Python sort is
stable, and so is List.insertionSort. -/
def lsegLE (a b : LabeledSeg) : Prop := a.start ≤ b.start

instance : DecidableRel lsegLE := fun a b =>
  inferInstanceAs (Decidable (a.start ≤ b.start))

/-- Body of the try block of _assign_speakers_to_whisper_segments: process
all whisper segments, then sort by start. -/
def assignInner (wss : List WhisperDict) (sss : List SpeakerDict) :
    Except Unit (List LabeledSeg) :=
  (assignLoop sss wss).map (List.insertionSort lsegLE)

/-- DiarizationProcessor._assign_speakers_to_whisper_segments: the whole body
runs inside try/except, and any exception yields the empty list. -/
def assignSpeakersToWhisperSegments (wss : List WhisperDict)
    (sss : List SpeakerDict) : List LabeledSeg :=
  match assignInner wss sss with
  | .ok l => l
  | .error _ => []

theorem bindOk (a : α) (f : α → Except Unit β) :
    Bind.bind (Except.ok a) f = f a := rfl

theorem pureOk (a : α) : (pure a : Except Unit α) = Except.ok a := rfl

theorem bindErr (e : Unit) (f : α → Except Unit β) :
    Bind.bind (Except.error e) f = Except.error e := rfl

theorem mapOk (f : α → β) (a : α) :
    (f <$> (Except.ok a : Except Unit α)) = Except.ok (f a) := rfl

theorem mapErr (f : α → β) (e : Unit) :
    (f <$> (Except.error e : Except Unit α)) = Except.error e := rfl

theorem overlapLoop_of_zero_overlap :
    ∀ (l : List SpeakerDict) (wstart wstop : ℚ),
      (∀ ss ∈ l, ∃ s e sp, ss = ⟨some s, some e, some sp⟩) →
      (∀ ss ∈ l, ovl wstart wstop (ss.start.getD 0) (ss.stop.getD 0) = 0) →
      overlapLoop wstart wstop l (none, 0) = .ok (none, 0) := by
  intro l wstart wstop
  induction l with
  | nil => intro _ _; rfl
  | cons a rest ih =>
    intro hkeys hov
    obtain ⟨s, e, sp, ha⟩ := hkeys a (by simp)
    have hz : ovl wstart wstop s e = 0 := by
      have := hov a (by simp)
      rw [ha] at this
      simpa using this
    subst ha
    rw [overlapLoop]
    simp only [getKey, bindOk, hz, lt_self_iff_false, if_false]
    exact ih (fun ss hss => hkeys ss (by simp [hss]))
      (fun ss hss => hov ss (by simp [hss]))

theorem nearestLoop_of_far :
    ∀ (l : List SpeakerDict) (wstart wstop : ℚ) (nd : Option ℚ) (best : Option String),
      (∀ ss ∈ l, ∃ s e sp, ss = ⟨some s, some e, some sp⟩) →
      (∀ ss ∈ l, 2 < distTo wstart wstop (ss.start.getD 0) (ss.stop.getD 0)) →
      gt2 nd →
      ∃ nd2 best2, nearestLoop wstart wstop l (nd, best) = .ok (nd2, best2) ∧ gt2 nd2 := by
  intro l wstart wstop
  induction l with
  | nil => intro nd best _ _ hnd; exact ⟨nd, best, rfl, hnd⟩
  | cons a rest ih =>
    intro nd best hkeys hfar hnd
    obtain ⟨s, e, sp, ha⟩ := hkeys a (by simp)
    have hd : 2 < distTo wstart wstop s e := by
      have := hfar a (by simp)
      rw [ha] at this
      simpa using this
    subst ha
    have hrest1 : ∀ ss ∈ rest, ∃ s e sp, ss = SpeakerDict.mk (some s) (some e) (some sp) :=
      fun ss hss => hkeys ss (by simp [hss])
    have hrest2 : ∀ ss ∈ rest, 2 < distTo wstart wstop (ss.start.getD 0) (ss.stop.getD 0) :=
      fun ss hss => hfar ss (by simp [hss])
    have heval : nearestLoop wstart wstop (⟨some s, some e, some sp⟩ :: rest) (nd, best) =
        if ndLT (distTo wstart wstop s e) nd then
          nearestLoop wstart wstop rest (some (distTo wstart wstop s e), some sp)
        else
          nearestLoop wstart wstop rest (nd, best) := by
      rw [nearestLoop]
      by_cases h1 : wstop < s
      · simp [getKey, bindOk, pureOk, distTo, h1]
      · simp [getKey, bindOk, pureOk, distTo, h1]
    rw [heval]
    by_cases h2 : ndLT (distTo wstart wstop s e) nd
    · rw [if_pos h2]
      exact ih (some (distTo wstart wstop s e)) (some sp) hrest1 hrest2 hd
    · rw [if_neg h2]
      exact ih nd best hrest1 hrest2 hnd

/-- C7 confirmed: a whisper segment with non-empty trimmed text, zero overlap
with every speaker segment, and distance above 2.0 s to every speaker
segment (or an empty speaker list) is labeled SPEAKER_0. -/
theorem claim_C7_theorem (ws : WhisperDict) (sss : List SpeakerDict)
    (htext : (ws.text.getD "").trim ≠ "")
    (hkeys : ∀ ss ∈ sss, ∃ s e sp, ss = ⟨some s, some e, some sp⟩)
    (hov : ∀ ss ∈ sss,
      ovl (ws.start.getD 0) (ws.stop.getD 0) (ss.start.getD 0) (ss.stop.getD 0) = 0)
    (hfar : sss = [] ∨ ∀ ss ∈ sss,
      2 < distTo (ws.start.getD 0) (ws.stop.getD 0) (ss.start.getD 0) (ss.stop.getD 0)) :
    assignOne sss ws = .ok (some
      { start := ws.start.getD 0, stop := ws.stop.getD 0, speaker := "SPEAKER_0",
        text := (ws.text.getD "").trim,
        duration := ws.stop.getD 0 - ws.start.getD 0 }) := by
  rcases eq_or_ne sss [] with hemp | hne
  · subst hemp
    simp only [assignOne]
    rw [if_neg htext]
    rfl
  · have hfarAll : ∀ ss ∈ sss,
        2 < distTo (ws.start.getD 0) (ws.stop.getD 0) (ss.start.getD 0) (ss.stop.getD 0) := by
      rcases hfar with h | h
      · exact absurd h hne
      · exact h
    have hloop := overlapLoop_of_zero_overlap sss (ws.start.getD 0) (ws.stop.getD 0) hkeys hov
    obtain ⟨nd2, best2, hnear, hgt⟩ :=
      nearestLoop_of_far sss (ws.start.getD 0) (ws.stop.getD 0) none none hkeys hfarAll trivial
    simp only [assignOne]
    rw [if_neg htext]
    simp only [pureOk, bindOk]
    rw [hloop]
    simp only [bindOk]
    rw [if_pos ⟨Or.inl rfl, hne⟩]
    rw [hnear]
    simp only [bindOk, pureOk]
    rw [if_pos hgt]
    rw [if_neg (by simp [isFalsy])]
    rfl

/-- Witness data for C7: one transcript segment far away from the single
speaker segment. -/
def wsC7 : WhisperDict := ⟨some 10, some 11, some " hello "⟩

/-- Witness speaker list for C7. -/
def sssC7 : List SpeakerDict := [⟨some 0, some 1, some "SPEAKER_1"⟩]

theorem claim_C7_witness :
    assignOne sssC7 wsC7 = .ok (some
      { start := (10:ℚ), stop := 11, speaker := "SPEAKER_0", text := "hello",
        duration := 1 }) := by
  have h := claim_C7_theorem wsC7 sssC7
    (by with_unfolding_all decide)
    (by intro ss hss; refine ⟨0, 1, "SPEAKER_1", ?_⟩; simpa [sssC7] using hss)
    (by
      intro ss hss
      have : ss = SpeakerDict.mk (some 0) (some 1) (some "SPEAKER_1") := by
        simpa [sssC7] using hss
      subst this
      show ovl ((10:ℚ)) 11 0 1 = 0
      norm_num [ovl])
    (Or.inr (by
      intro ss hss
      have : ss = SpeakerDict.mk (some 0) (some 1) (some "SPEAKER_1") := by
        simpa [sssC7] using hss
      subst this
      show (2:ℚ) < distTo 10 11 0 1
      norm_num [distTo]))
  have htrim : ((wsC7.text.getD "").trim) = "hello" := by with_unfolding_all decide
  rw [h, htrim]
  norm_num [wsC7]

theorem overlapLoop_error_of_missing_start :
    ∀ (l : List SpeakerDict) (wstart wstop : ℚ) (acc : Option String × ℚ)
      (ss : SpeakerDict), ss ∈ l → ss.start = none →
      overlapLoop wstart wstop l acc = .error () := by
  intro l wstart wstop
  induction l with
  | nil => intro acc ss hmem _; exact absurd hmem (List.not_mem_nil ss)
  | cons a rest ih =>
    intro acc ss hmem hnone
    obtain ⟨best, bestOv⟩ := acc
    rcases List.mem_cons.mp hmem with heq | hmem2
    · subst heq
      rw [overlapLoop, hnone]
      simp only [getKey, bindErr]
    · cases ha : a.start with
      | none =>
        rw [overlapLoop, ha]
        simp only [getKey, bindErr]
      | some s =>
        cases he : a.stop with
        | none =>
          rw [overlapLoop, ha, he]
          simp only [getKey, bindOk, bindErr]
        | some e =>
          rw [overlapLoop, ha, he]
          simp only [getKey, bindOk]
          split
          · cases hsp : a.speaker with
            | none => simp only [getKey, bindErr]
            | some sp =>
              simp only [getKey, bindOk]
              exact ih _ ss hmem2 hnone
          · exact ih _ ss hmem2 hnone

theorem assignOne_error_of_missing_start (sss : List SpeakerDict)
    (ws : WhisperDict) (htext : (ws.text.getD "").trim ≠ "")
    (h : ∃ ss ∈ sss, ss.start = none) :
    assignOne sss ws = .error () := by
  obtain ⟨ss, hmem, hnone⟩ := h
  have hloop := overlapLoop_error_of_missing_start sss (ws.start.getD 0)
    (ws.stop.getD 0) (none, 0) ss hmem hnone
  simp only [assignOne]
  rw [if_neg htext]
  simp only [pureOk, bindOk]
  rw [hloop]
  rfl

theorem assignLoop_error :
    ∀ (wss : List WhisperDict) (sss : List SpeakerDict) (ws : WhisperDict),
      ws ∈ wss → assignOne sss ws = .error () →
      assignLoop sss wss = .error () := by
  intro wss
  induction wss with
  | nil => intro sss ws hmem _; exact absurd hmem (List.not_mem_nil ws)
  | cons w rest ih =>
    intro sss ws hmem herr
    rcases List.mem_cons.mp hmem with heq | hmem2
    · subst heq
      rw [assignLoop, herr]
      simp only [bindErr]
    · cases hw : assignOne sss w with
      | error e =>
        obtain rfl : e = () := rfl
        rw [assignLoop, hw]
        simp only [bindErr]
      | ok v =>
        rw [assignLoop, hw]
        simp only [bindOk]
        rw [ih sss ws hmem2 herr]
        simp only [bindErr]

/-- C10 confirmed: if any whisper segment with non-empty trimmed text is
present and any speaker dict lacks its start key, the aligner catches the
KeyError and returns the empty list, discarding every labeled segment that
was already computed. -/
theorem claim_C10_theorem (wss : List WhisperDict) (sss : List SpeakerDict)
    (hws : ∃ ws ∈ wss, (ws.text.getD "").trim ≠ "")
    (hss : ∃ ss ∈ sss, ss.start = none) :
    assignSpeakersToWhisperSegments wss sss = [] := by
  obtain ⟨ws, hmem, htext⟩ := hws
  have h1 := assignOne_error_of_missing_start sss ws htext hss
  have h2 := assignLoop_error wss sss ws hmem h1
  simp [assignSpeakersToWhisperSegments, assignInner, h2, Except.map]

/-- Witness whisper segments for C10: both have text, and the first one is
fully processable against the first (well-formed) speaker dict. -/
def wssC10 : List WhisperDict :=
  [⟨some 0, some 1, some "hello"⟩, ⟨some 1, some 2, some "world"⟩]

/-- Witness speaker segments for C10: the first is well-formed, the second
lacks its start key. -/
def sssC10 : List SpeakerDict :=
  [⟨some 0, some 2, some "SPEAKER_1"⟩, ⟨none, some 9, some "SPEAKER_2"⟩]

theorem claim_C10_witness : assignSpeakersToWhisperSegments wssC10 sssC10 = [] :=
  claim_C10_theorem wssC10 sssC10
    ⟨⟨some 0, some 1, some "hello"⟩, by simp [wssC10], by with_unfolding_all decide⟩
    ⟨⟨none, some 9, some "SPEAKER_2"⟩, by simp [sssC10], rfl⟩

/-! SummarizationClient._calculate_speaker_statistics
(src/audio/summarization_client.py, lines 173-219) and
_estimate_conversation_duration (lines 221-227).  The per-speaker statistics
dict is insertion ordered, modelled as an association list. -/

/-- Transcript segment dict as consumed by the statistics code: keys end
(stop), speaker, duration, text, all read with .get and a default. -/
structure StatSeg where
  stop : Option ℚ
  speaker : Option String
  duration : Option ℚ
  text : Option String
  deriving DecidableEq, Repr

/-- Accumulated per-speaker counters of _calculate_speaker_statistics. -/
structure SpkStat where
  total_time : ℚ
  word_count : ℕ
  segment_count : ℕ
  deriving DecidableEq, Repr

/-- Python len(text.split()): number of maximal whitespace-free words. -/
def pyWordCount (t : String) : ℕ :=
  ((t.split (fun c => c.isWhitespace)).filter (fun w => w ≠ "")).length

/-- One loop iteration on the stats dict: create the entry with zeros if the
speaker is new (Python dicts append new keys at the end), then add the
segment's duration, word count and count of one. -/
def bumpStat : List (String × SpkStat) → String → ℚ → ℕ → List (String × SpkStat)
  | [], sp, d, w => [(sp, ⟨d, w, 1⟩)]
  | (k, st) :: rest, sp, d, w =>
    if k = sp then
      (k, ⟨st.total_time + d, st.word_count + w, st.segment_count + 1⟩) :: rest
    else
      (k, st) :: bumpStat rest sp d w

/-- First loop of _calculate_speaker_statistics: accumulate the per-speaker
counters and the overall total_duration. -/
def statsLoop : List StatSeg → List (String × SpkStat) × ℚ → List (String × SpkStat) × ℚ
  | [], acc => acc
  | seg :: rest, (stats, total) =>
    let sp := seg.speaker.getD "UNKNOWN"
    let d := seg.duration.getD 0
    let t := seg.text.getD ""
    let w := if t = "" then 0 else pyWordCount t
    statsLoop rest (bumpStat stats sp d w, total + d)

/-- Accumulation phase of _calculate_speaker_statistics. -/
def calculateSpeakerStatistics (segs : List StatSeg) :
    List (String × SpkStat) × ℚ :=
  statsLoop segs ([], 0)

/-- Second loop of _calculate_speaker_statistics, restricted to the
time_percentage field it computes: total_time / total_duration * 100 when
total_duration > 0, else 0, for every speaker with a positive segment
count. -/
def timePercentages (segs : List StatSeg) : List (String × ℚ) :=
  let r := calculateSpeakerStatistics segs
  (r.1.filter (fun p => 0 < p.2.segment_count)).map
    (fun p => (p.1, if 0 < r.2 then p.2.total_time / r.2 * 100 else 0))

/-- SummarizationClient._estimate_conversation_duration: max end timestamp
over all segments, 0 for the empty list. -/
def estimateConversationDuration : List StatSeg → ℚ
  | [] => 0
  | s :: rest => rest.foldl (fun m x => max m (x.stop.getD 0)) (s.stop.getD 0)

/-- Sum of all segment durations, the denominator actually used by the
code. -/
def totalDuration (segs : List StatSeg) : ℚ :=
  (segs.map (fun s => s.duration.getD 0)).sum

/-- Total duration of one speaker's segments. -/
def filterTotalTime (sp : String) (segs : List StatSeg) : ℚ :=
  ((segs.filter (fun s => s.speaker.getD "UNKNOWN" = sp)).map
    (fun s => s.duration.getD 0)).sum

/-- Modelled from the words of the claim, for comparison only: percentage as
the speaker's total duration divided by the maximum end timestamp across all
segments, times 100. -/
def specTimePercentage (sp : String) (segs : List StatSeg) : ℚ :=
  filterTotalTime sp segs / estimateConversationDuration segs * 100

/-- First-occurrence total_time lookup in the stats association list. -/
def assocTime : List (String × SpkStat) → String → ℚ
  | [], _ => 0
  | (k, st) :: rest, sp => if k = sp then st.total_time else assocTime rest sp

theorem assocTime_bumpStat :
    ∀ (stats : List (String × SpkStat)) (sp2 sp : String) (d : ℚ) (w : ℕ),
      assocTime (bumpStat stats sp2 d w) sp =
        assocTime stats sp + (if sp2 = sp then d else 0) := by
  intro stats
  induction stats with
  | nil =>
    intro sp2 sp d w
    by_cases h : sp2 = sp <;> simp [bumpStat, assocTime, h]
  | cons p rest ih =>
    intro sp2 sp d w
    obtain ⟨k, st⟩ := p
    by_cases h1 : k = sp2
    · rw [bumpStat, if_pos h1]
      by_cases h2 : k = sp
      · have : sp2 = sp := h1 ▸ h2
        simp [assocTime, h2, this, add_comm, add_assoc, add_left_comm]
      · have : ¬sp2 = sp := fun hc => h2 (hc ▸ h1)
        simp [assocTime, h2, this]
    · rw [bumpStat, if_neg h1]
      by_cases h2 : k = sp
      · have : ¬sp2 = sp := fun hc => h1 (h2.trans hc.symm)
        simp [assocTime, h2, this]
      · simp [assocTime, h2, ih]

theorem statsLoop_assocTime :
    ∀ (segs : List StatSeg) (stats : List (String × SpkStat)) (t : ℚ) (sp : String),
      assocTime (statsLoop segs (stats, t)).1 sp =
        assocTime stats sp + filterTotalTime sp segs := by
  intro segs
  induction segs with
  | nil => intro stats t sp; simp [statsLoop, filterTotalTime]
  | cons seg rest ih =>
    intro stats t sp
    rw [statsLoop]
    rw [ih]
    rw [assocTime_bumpStat]
    by_cases h : seg.speaker.getD "UNKNOWN" = sp
    · simp [filterTotalTime, h, add_assoc, add_comm, add_left_comm]
    · simp [filterTotalTime, h]

theorem statsLoop_total :
    ∀ (segs : List StatSeg) (stats : List (String × SpkStat)) (t : ℚ),
      (statsLoop segs (stats, t)).2 = t + totalDuration segs := by
  intro segs
  induction segs with
  | nil => intro stats t; simp [statsLoop, totalDuration]
  | cons seg rest ih =>
    intro stats t
    rw [statsLoop, ih]
    simp [totalDuration, add_assoc]

/-- Keys of the stats dict are distinct. -/
def keysND (stats : List (String × SpkStat)) : Prop :=
  (stats.map Prod.fst).Nodup

theorem keys_bumpStat :
    ∀ (stats : List (String × SpkStat)) (sp : String) (d : ℚ) (w : ℕ),
      (bumpStat stats sp d w).map Prod.fst = stats.map Prod.fst ∨
        (bumpStat stats sp d w).map Prod.fst = stats.map Prod.fst ++ [sp] ∧
          sp ∉ stats.map Prod.fst := by
  intro stats
  induction stats with
  | nil => intro sp d w; right; simp [bumpStat]
  | cons p rest ih =>
    intro sp d w
    obtain ⟨k, st⟩ := p
    by_cases h : k = sp
    · left; rw [bumpStat, if_pos h]; simp
    · rcases ih sp d w with h2 | ⟨h2, h3⟩
      · left; rw [bumpStat, if_neg h]; simp [h2]
      · right
        constructor
        · rw [bumpStat, if_neg h]; simp [h2]
        · simp only [List.map_cons, List.mem_cons]
          rintro (hc | hc)
          · exact h hc.symm
          · exact h3 hc

theorem keysND_bumpStat (stats : List (String × SpkStat)) (sp : String)
    (d : ℚ) (w : ℕ) (h : keysND stats) : keysND (bumpStat stats sp d w) := by
  rcases keys_bumpStat stats sp d w with h2 | ⟨h2, h3⟩
  · unfold keysND; rw [h2]; exact h
  · unfold keysND
    rw [h2, List.nodup_append]
    refine ⟨h, List.nodup_singleton sp, ?_⟩
    intro x hx hx2
    simp only [List.mem_singleton] at hx2
    subst hx2
    exact h3 hx

theorem keysND_statsLoop :
    ∀ (segs : List StatSeg) (stats : List (String × SpkStat)) (t : ℚ),
      keysND stats → keysND (statsLoop segs (stats, t)).1 := by
  intro segs
  induction segs with
  | nil => intro stats t h; exact h
  | cons seg rest ih =>
    intro stats t h
    rw [statsLoop]
    exact ih _ _ (keysND_bumpStat _ _ _ _ h)

theorem assocTime_of_mem :
    ∀ (stats : List (String × SpkStat)) (sp : String) (st : SpkStat),
      keysND stats → (sp, st) ∈ stats → assocTime stats sp = st.total_time := by
  intro stats
  induction stats with
  | nil => intro sp st _ hmem; exact absurd hmem (List.not_mem_nil _)
  | cons p rest ih =>
    intro sp st hnd hmem
    obtain ⟨k, st0⟩ := p
    rcases List.mem_cons.mp hmem with heq | hmem2
    · injection heq with h1 h2
      subst h1; subst h2
      simp [assocTime]
    · have hnd1 : k ∉ rest.map Prod.fst ∧ (rest.map Prod.fst).Nodup :=
        List.nodup_cons.mp hnd
      have hk : k ≠ sp := by
        intro hc
        subst hc
        exact hnd1.1 (List.mem_map.mpr ⟨(k, st), hmem2, rfl⟩)
      have hndr : keysND rest := hnd1.2
      rw [assocTime, if_neg hk]
      exact ih sp st hndr hmem2

/-- Two segments of the same speaker with durations 1 and 1; their end
timestamps are 1 and 6, so the sum of durations (2) differs from the maximum
end (6). -/
def cexC5 : List StatSeg :=
  [⟨some 1, some "SPEAKER_0", some 1, some "a"⟩,
   ⟨some 6, some "SPEAKER_0", some 1, some "b"⟩]

/-- C5 counterexample: the code reports 100 percent for SPEAKER_0, while the
claimed formula (duration over maximum end timestamp) gives 100/3 percent. -/
theorem claim_C5_counterexample :
    (timePercentages cexC5).lookup "SPEAKER_0" = some 100 ∧
      specTimePercentage "SPEAKER_0" cexC5 = 100/3 ∧ (100:ℚ) ≠ 100/3 := by
  refine ⟨?_, ?_, by norm_num⟩
  · with_unfolding_all decide
  · with_unfolding_all decide

/-- C5 amended: the per-speaker time percentage reported by
_calculate_speaker_statistics is the speaker's total duration divided by the
sum of all segment durations, times 100 (0 when that sum is not positive);
the maximum end timestamp is only used by the separate conversation-duration
estimate. -/
theorem claim_C5_theorem (segs : List StatSeg) (sp : String) (q : ℚ)
    (h : (sp, q) ∈ timePercentages segs) :
    q = if 0 < totalDuration segs then
      filterTotalTime sp segs / totalDuration segs * 100 else 0 := by
  unfold timePercentages at h
  obtain ⟨⟨sp0, st⟩, hmem, heq⟩ := List.mem_map.mp h
  injection heq with h1 h2
  dsimp only at h1 h2
  rw [h1] at hmem
  have hmem2 : (sp, st) ∈ (calculateSpeakerStatistics segs).1 :=
    List.mem_of_mem_filter hmem
  have hnd : keysND (calculateSpeakerStatistics segs).1 :=
    keysND_statsLoop segs [] 0 (by simp [keysND])
  have htt : st.total_time = filterTotalTime sp segs := by
    have h3 := assocTime_of_mem _ sp st hnd hmem2
    simp only [calculateSpeakerStatistics] at h3
    rw [statsLoop_assocTime segs [] 0 sp] at h3
    simpa [assocTime] using h3.symm
  have htot : (calculateSpeakerStatistics segs).2 = totalDuration segs := by
    rw [calculateSpeakerStatistics, statsLoop_total]
    simp
  rw [← h2, htot, htt]

theorem claim_C5_witness :
    (100:ℚ) = if 0 < totalDuration cexC5 then
      filterTotalTime "SPEAKER_0" cexC5 / totalDuration cexC5 * 100 else 0 :=
  claim_C5_theorem cexC5 "SPEAKER_0" 100 (by with_unfolding_all decide)

/-! SimpleSpeakerDiarizer._detect_speech (lines 48-66), _merge_segments
(lines 68-86) and _extract_features (lines 88-133).  The webrtcvad
is_speech call and the librosa per-interval feature computation are oracles
in the Except monad: an error value models the library call raising. -/

deriving instance DecidableEq for Except

/-- Python int() truncation toward zero of a rational. -/
def ratTruncInt (q : ℚ) : ℤ := q.num.tdiv q.den

/-- numpy int16 wraparound. -/
def wrap16 (n : ℤ) : ℤ := Int.emod (n + 32768) 65536 - 32768

/-- (frame * 32767).astype(np.int16): scale, truncate toward zero, wrap into
16-bit range. -/
def pcm16 (x : ℚ) : ℤ := wrap16 (ratTruncInt (x * 32767))

/-- waveform[start_sample:end_sample] with start_sample = int(start * 16000)
and end_sample = int(end * 16000); for the nonnegative interval bounds the
data model guarantees, the Python slice is drop then take. -/
def sampleSlice (w : List ℚ) (iv : ℚ × ℚ) : List ℚ :=
  let s := (ratTruncInt (iv.1 * 16000)).toNat
  let e := (ratTruncInt (iv.2 * 16000)).toNat
  (w.drop s).take (e - s)

/-- Loop of _extract_features: for each interval compute the feature vector
of its sample slice (librosa calls, an oracle) and append it.  The source
has no exception handling here, so a failing oracle call propagates. -/
def extractFeatures (featOf : List ℚ → Except Unit (List ℚ)) (w : List ℚ) :
    List (ℚ × ℚ) → Except Unit (List (List ℚ))
  | [] => .ok []
  | iv :: rest =>
    Bind.bind (featOf (sampleSlice w iv)) fun v =>
      Bind.bind (extractFeatures featOf w rest) fun vs =>
        Except.ok (v :: vs)

/-- Waveform for the C3 counterexample: a single sample. -/
def wC3 : List ℚ := [0]

/-- Feature oracle for the C3 counterexample: fails exactly on an empty
slice (as librosa does on an empty signal), otherwise one feature row. -/
def featC3 : List ℚ → Except Unit (List ℚ) :=
  fun s => if s = [] then .error () else .ok [(s.length : ℚ)]

/-- C3 counterexample: the first interval succeeds, but the zero-length
second interval makes the oracle raise and the whole batch aborts with the
exception instead of producing a fallback row. -/
theorem claim_C3_counterexample :
    featC3 (sampleSlice wC3 (0, 1)) = .ok [1] ∧
      extractFeatures featC3 wC3 [(0, 1), (1, 1)] = .error () := by
  constructor
  · with_unfolding_all decide
  · with_unfolding_all decide

theorem extractFeatures_length (featOf : List ℚ → Except Unit (List ℚ))
    (w : List ℚ) :
    ∀ (ivs : List (ℚ × ℚ)) (rows : List (List ℚ)),
      extractFeatures featOf w ivs = .ok rows → rows.length = ivs.length := by
  intro ivs
  induction ivs with
  | nil =>
    intro rows h
    injection h with h2
    rw [← h2]
    rfl
  | cons iv rest ih =>
    intro rows h
    rw [extractFeatures] at h
    cases hf : featOf (sampleSlice w iv) with
    | error e => rw [hf] at h; exact absurd h (by simp [bindErr])
    | ok v =>
      rw [hf] at h
      simp only [bindOk] at h
      cases hr : extractFeatures featOf w rest with
      | error e => rw [hr] at h; exact absurd h (by simp [bindErr])
      | ok vs =>
        rw [hr] at h
        simp only [bindOk, pureOk] at h
        injection h with h2
        rw [← h2]
        simp [ih vs hr]

theorem extractFeatures_ok_iff (featOf : List ℚ → Except Unit (List ℚ))
    (w : List ℚ) :
    ∀ ivs : List (ℚ × ℚ),
      (∃ rows, extractFeatures featOf w ivs = .ok rows) ↔
        ∀ iv ∈ ivs, ∃ v, featOf (sampleSlice w iv) = .ok v := by
  intro ivs
  induction ivs with
  | nil => simp [extractFeatures]
  | cons iv rest ih =>
    rw [extractFeatures]
    cases hf : featOf (sampleSlice w iv) with
    | error e =>
      obtain rfl : e = () := rfl
      simp only [bindErr]
      constructor
      · intro ⟨rows, hrows⟩; exact absurd hrows (by simp)
      · intro hall
        obtain ⟨v, hv⟩ := hall iv (by simp)
        rw [hv] at hf
        exact absurd hf (by simp)
    | ok v =>
      simp only [bindOk]
      cases hr : extractFeatures featOf w rest with
      | error e =>
        obtain rfl : e = () := rfl
        simp only [bindErr]
        constructor
        · intro ⟨rows, hrows⟩; exact absurd hrows (by simp)
        · intro hall
          have hrest : ∀ x ∈ rest, ∃ v2, featOf (sampleSlice w x) = .ok v2 :=
            fun x hx => hall x (by simp [hx])
          obtain ⟨rows, hrows⟩ := ih.mpr hrest
          rw [hr] at hrows
          exact absurd hrows (by simp)
      | ok vs =>
        simp only [bindOk, pureOk]
        constructor
        · intro _ x hx
          rcases List.mem_cons.mp hx with rfl | hx2
          · exact ⟨v, hf⟩
          · have hrest : ∃ rows, extractFeatures featOf w rest = .ok rows :=
              ⟨vs, hr⟩
            exact (ih.mp hrest) x hx2
        · intro _
          exact ⟨v :: vs, rfl⟩

/-- C3 amended: _extract_features returns one feature row per interval, in
order, whenever every per-interval librosa computation succeeds; but a
failure on any single interval is not caught and aborts the whole batch
with the exception, producing no fallback row. -/
theorem claim_C3_theorem (featOf : List ℚ → Except Unit (List ℚ))
    (w : List ℚ) (ivs : List (ℚ × ℚ)) :
    (∀ rows, extractFeatures featOf w ivs = .ok rows →
        rows.length = ivs.length) ∧
      ((∃ rows, extractFeatures featOf w ivs = .ok rows) ↔
        ∀ iv ∈ ivs, ∃ v, featOf (sampleSlice w iv) = .ok v) :=
  ⟨fun rows h => extractFeatures_length featOf w ivs rows h,
    extractFeatures_ok_iff featOf w ivs⟩

/-- Python range(0, len(waveform) - frame_length, frame_length) with
frame_length = int(16000 * 30 / 1000) = 480: the upper bound is exclusive
and the trailing partial frame is never visited, so every frame passed to
the detector has exactly 480 samples. -/
def frameIndices (wlen : ℕ) : List ℕ :=
  List.range' 0 ((wlen - 480 + 479) / 480) 480

/-- Frame loop of _detect_speech: classify each PCM16 frame with the
webrtcvad oracle and record the interval of every speech frame.  The source
has no exception handling here, so a rejecting oracle call propagates. -/
def vadLoop (vad : List ℤ → Except Unit Bool) (w : List ℚ) :
    List ℕ → Except Unit (List (ℚ × ℚ))
  | [] => .ok []
  | i :: rest =>
    Bind.bind (vad (((w.drop i).take 480).map pcm16)) fun b =>
      Bind.bind (vadLoop vad w rest) fun tail =>
        Except.ok (if b then ((i : ℚ) / 16000, ((i : ℚ) + 480) / 16000) :: tail
          else tail)

/-- Closing step of _merge_segments: cs, ce hold the segment currently being
grown; a segment is kept only when it is at least minDur long. -/
def mergeGo (minDur cs ce : ℚ) : List (ℚ × ℚ) → List (ℚ × ℚ)
  | [] => if minDur ≤ ce - cs then [(cs, ce)] else []
  | (s, e) :: rest =>
    if s - ce < 3/10 then
      mergeGo minDur cs e rest
    else
      if minDur ≤ ce - cs then (cs, ce) :: mergeGo minDur s e rest
      else mergeGo minDur s e rest

/-- _merge_segments with its default gap_threshold 0.3 and the
MIN_SPEECH_DURATION setting as a parameter. -/
def mergeSegments (minDur : ℚ) : List (ℚ × ℚ) → List (ℚ × ℚ)
  | [] => []
  | (s0, e0) :: rest => mergeGo minDur s0 e0 rest

/-- SimpleSpeakerDiarizer._detect_speech: VAD frame loop then merging. -/
def detectSpeech (vad : List ℤ → Except Unit Bool) (minDur : ℚ)
    (w : List ℚ) : Except Unit (List (ℚ × ℚ)) :=
  Bind.bind (vadLoop vad w (frameIndices w.length)) fun segs =>
    Except.ok (mergeSegments minDur segs)

/-- Waveform for the C4 counterexample: 961 samples give the two frame
starts 0 and 480; the first frame holds ones, the second zeros. -/
def wC4 : List ℚ := List.replicate 480 1 ++ List.replicate 481 0

/-- Detector for the C4 counterexample: accepts a frame starting with a
nonzero sample and raises on a frame starting with zero. -/
def vadC4 : List ℤ → Except Unit Bool :=
  fun f => if f.headD 0 = 0 then .error () else .ok true

/-- C4 counterexample: the detector classifies the first frame, rejects the
second, and _detect_speech aborts with the exception instead of skipping the
frame and continuing. -/
theorem claim_C4_counterexample :
    vadC4 ((wC4.take 480).map pcm16) = .ok true ∧
      detectSpeech vadC4 (1/2) wC4 = .error () := by
  constructor
  · with_unfolding_all decide
  · with_unfolding_all decide

theorem vadLoop_ok_iff (vad : List ℤ → Except Unit Bool) (w : List ℚ) :
    ∀ idx : List ℕ,
      (∃ segs, vadLoop vad w idx = .ok segs) ↔
        ∀ i ∈ idx, ∃ b, vad (((w.drop i).take 480).map pcm16) = .ok b := by
  intro idx
  induction idx with
  | nil => simp [vadLoop]
  | cons i rest ih =>
    rw [vadLoop]
    cases hf : vad (((w.drop i).take 480).map pcm16) with
    | error e =>
      obtain rfl : e = () := rfl
      simp only [bindErr]
      constructor
      · intro ⟨segs, hsegs⟩; exact absurd hsegs (by simp)
      · intro hall
        obtain ⟨b, hb⟩ := hall i (by simp)
        rw [hb] at hf
        exact absurd hf (by simp)
    | ok b =>
      simp only [bindOk]
      cases hr : vadLoop vad w rest with
      | error e =>
        obtain rfl : e = () := rfl
        simp only [bindErr]
        constructor
        · intro ⟨segs, hsegs⟩; exact absurd hsegs (by simp)
        · intro hall
          have hrest : ∀ j ∈ rest, ∃ b2, vad (((w.drop j).take 480).map pcm16) = .ok b2 :=
            fun j hj => hall j (by simp [hj])
          obtain ⟨segs, hsegs⟩ := ih.mpr hrest
          rw [hr] at hsegs
          exact absurd hsegs (by simp)
      | ok tail =>
        simp only [bindOk, pureOk]
        constructor
        · intro _ j hj
          rcases List.mem_cons.mp hj with rfl | hj2
          · exact ⟨b, hf⟩
          · exact (ih.mp ⟨tail, hr⟩) j hj2
        · intro _
          exact ⟨if b then ((i : ℚ) / 16000, ((i : ℚ) + 480) / 16000) :: tail
            else tail, rfl⟩

/-- C4 amended: a detector exception is not caught: a single rejected frame
aborts the whole segmentation; _detect_speech succeeds exactly when the
detector classifies every frame without error.  (The frame loop never
produces a malformed frame size: its exclusive bound drops the trailing
partial frame.) -/
theorem claim_C4_theorem (vad : List ℤ → Except Unit Bool) (minDur : ℚ)
    (w : List ℚ) :
    (∃ segs, detectSpeech vad minDur w = .ok segs) ↔
      ∀ i ∈ frameIndices w.length,
        ∃ b, vad (((w.drop i).take 480).map pcm16) = .ok b := by
  rw [← vadLoop_ok_iff vad w (frameIndices w.length)]
  unfold detectSpeech
  constructor
  · intro ⟨segs, hsegs⟩
    cases hr : vadLoop vad w (frameIndices w.length) with
    | error e =>
      rw [hr] at hsegs
      exact absurd hsegs (by simp [bindErr])
    | ok v => exact ⟨v, rfl⟩
  · intro ⟨v, hv⟩
    rw [hv]
    exact ⟨mergeSegments minDur v, rfl⟩

/-! SimpleSpeakerDiarizer._cluster_speakers (lines 135-212),
_validate_and_refine_clusters (lines 214-224) and _estimate_n_speakers
(lines 226-270).  sklearn StandardScaler, KMeans, silhouette_score and the
scipy euclidean metric are oracle fields; the silhouette oracle returns none
when the library call raises (the source swallows that exception and skips
the candidate count).  The diarizer object state relevant here is the
mutable self.n_speakers field, threaded explicitly: clusterSpeakers returns
the labels together with the value of self.n_speakers after the call and
the cluster count of the final clustering (bookkeeping for the label-range
property; 1 when collapsed to a single speaker). -/

/-- Result of KMeans(...).fit_predict plus cluster_centers_. -/
structure KMeansResult where
  labels : List ℕ
  centers : List (List ℚ)
  deriving DecidableEq, Repr

/-- External library calls used by the clusterer. -/
structure Oracles where
  scale : List (List ℚ) → List (List ℚ)
  kmeans : ℕ → List (List ℚ) → KMeansResult
  silhouette : List (List ℚ) → List ℕ → Option ℚ
  dist : List ℚ → List ℚ → ℚ

/-- np.sum(labels == i). -/
def countLabel (labels : List ℕ) (i : ℕ) : ℕ :=
  (labels.filter (fun l => l = i)).length

/-- Ordered pairs i < j of the centroid loop at lines 167-169. -/
def pairList : List α → List (α × α)
  | [] => []
  | x :: xs => (xs.map (fun y => (x, y))) ++ pairList xs

/-- np.mean over all pairwise centroid distances. -/
def avgDist (dist : List ℚ → List ℚ → ℚ) (centers : List (List ℚ)) : ℚ :=
  let ds := (pairList centers).map (fun p => dist p.1 p.2)
  ds.sum / (ds.length : ℚ)

/-- Median of a five-element window: middle element after sorting. -/
def median5 (v : List ℕ) : ℕ :=
  (List.insertionSort (fun a b : ℕ => a ≤ b) v)[2]?.getD 0

/-- Zero-padded read used by scipy.signal.medfilt. -/
def padGet (l : List ℕ) (j : ℤ) : ℕ :=
  if j < 0 then 0 else l[j.toNat]?.getD 0

/-- scipy.signal.medfilt(labels, kernel_size=5): sliding median over the
zero-padded sequence, same length as the input. -/
def medianFilter5 (l : List ℕ) : List ℕ :=
  (List.range l.length).map fun i : ℕ =>
    median5 [padGet l ((i : ℤ) - 2), padGet l ((i : ℤ) - 1), padGet l (i : ℤ),
      padGet l ((i : ℤ) + 1), padGet l ((i : ℤ) + 2)]

/-- _estimate_n_speakers: try candidate counts 1..max_clusters, score the
ones above 1 by silhouette, keep the best strict improvement, and default
to 2 when nothing beat the 1-cluster baseline and at least 10 rows exist.
The n = 1 iteration of the source loop runs KMeans but never scores it, so
it cannot change the result and is skipped here. -/
def estimateNSpeakers (o : Oracles) (maxSpeakers : ℕ)
    (features : List (List ℚ)) : ℕ :=
  let maxClusters := max (min maxSpeakers (min (features.length / 3) 5)) 2
  if features.length < 4 then 1
  else
    let scaled := o.scale features
    let best := (List.range' 1 maxClusters).foldl
      (fun best n =>
        if features.length ≤ n then best
        else if 1 < n then
          match o.silhouette scaled (o.kmeans n scaled).labels with
          | some score => if best.2 < score then (n, score) else best
          | none => best
        else best)
      ((1, -1) : ℕ × ℚ)
    if best.1 = 1 ∧ 10 ≤ features.length then 2 else best.1

/-- Value of self.n_speakers after lines 146-154: the hint or the estimate,
clamped into [2, MAX_SPEAKERS] when at least 5 rows exist. -/
def resolveNSpeakers (o : Oracles) (maxSpeakers : ℕ) (nSpeakers0 : Option ℕ)
    (features : List (List ℚ)) : ℕ :=
  let nSp1 := match nSpeakers0 with
    | some k => k
    | none => estimateNSpeakers o maxSpeakers features
  if 5 ≤ features.length then max 2 (min nSp1 maxSpeakers) else nSp1

/-- _validate_and_refine_clusters: while some cluster is undersized, rerun
KMeans with one cluster fewer (down to 2), else collapse to one speaker.
Returns the labels and the final cluster count. -/
def validateAndRefine (o : Oracles) (minClusterSize : ℕ)
    (scaled : List (List ℚ)) : ℕ → List ℕ → List ℕ × ℕ
  | n, labels =>
    match (List.range n).find? (fun i => countLabel labels i < minClusterSize) with
    | some _ =>
      if h : 2 < n then
        validateAndRefine o minClusterSize scaled (n - 1)
          (o.kmeans (n - 1) scaled).labels
      else (List.replicate scaled.length 0, 1)
    | none => (labels, n)
termination_by n _ => n
decreasing_by omega

/-- Labels, final cluster count, and self.n_speakers after the call. -/
structure ClusterOutput where
  labels : List ℕ
  resolved : ℕ
  nSpeakersAfter : Option ℕ
  deriving DecidableEq, Repr

/-- Minimum-cluster-size loop (lines 192-206) followed by the median filter
(lines 209-210).  The loop runs over range(n_clusters) with the original
n_clusters even when the labels come from the 2-cluster distance retry
(retried = true).  At the first undersized cluster: with more than 2
clusters rerun KMeans with one fewer and hand over to the refinement; with
at most 2 clusters return all zeros when cluster 0 or 1 is undersized
(always the case for the found index, which is below n_clusters; on the
impossible fall-through Python would continue the loop and reach the median
filter, which is what the last branch does).  The refinement and collapse
paths return early in the source and therefore skip the median filter. -/
def sizeCheckAndFinish (o : Oracles) (minClusterSize : ℕ)
    (scaled : List (List ℚ)) (origLen nClusters : ℕ) (labels : List ℕ)
    (retried : Bool) (after : Option ℕ) : ClusterOutput :=
  match (List.range nClusters).find? (fun i => countLabel labels i < minClusterSize) with
  | some _ =>
    if 2 < nClusters then
      let p := validateAndRefine o minClusterSize scaled (nClusters - 1)
        (o.kmeans (nClusters - 1) scaled).labels
      ⟨p.1, p.2, after⟩
    else
      if countLabel labels 0 < minClusterSize ∨ countLabel labels 1 < minClusterSize then
        ⟨List.replicate origLen 0, 1, after⟩
      else
        ⟨(if 5 < labels.length then medianFilter5 labels else labels),
          (if retried then 2 else nClusters), after⟩
  | none =>
    ⟨(if 5 < labels.length then medianFilter5 labels else labels),
      (if retried then 2 else nClusters), after⟩

/-- SimpleSpeakerDiarizer._cluster_speakers.  Fewer than 2 rows return a
single cluster untouched; otherwise the features are standardized, the
speaker count resolved (mutating self.n_speakers), KMeans run, the
inter-centroid distance checked (retry with 2 clusters when below 2.0
without any second distance check; collapse to one speaker only when the
count was already at most 2 and the distance is below 1.0), then cluster
sizes are validated and the median filter applied. -/
def clusterSpeakers (o : Oracles) (maxSpeakers minClusterSize : ℕ)
    (nSpeakers0 : Option ℕ) (features : List (List ℚ)) : ClusterOutput :=
  if features.length < 2 then
    ⟨List.replicate features.length 0, 1, nSpeakers0⟩
  else
    let scaled := o.scale features
    let nSp2 := resolveNSpeakers o maxSpeakers nSpeakers0 features
    let after := some nSp2
    let nClusters := min nSp2 features.length
    let r := o.kmeans nClusters scaled
    if 1 < r.centers.length then
      if avgDist o.dist r.centers < 2 then
        if 2 < nClusters then
          sizeCheckAndFinish o minClusterSize scaled features.length nClusters
            (o.kmeans 2 scaled).labels true after
        else
          if avgDist o.dist r.centers < 1 then
            ⟨List.replicate features.length 0, 1, after⟩
          else
            sizeCheckAndFinish o minClusterSize scaled features.length nClusters
              r.labels false after
      else
        sizeCheckAndFinish o minClusterSize scaled features.length nClusters
          r.labels false after
    else
      sizeCheckAndFinish o minClusterSize scaled features.length nClusters
        r.labels false after

/-- Nine near-identical feature rows for the C1 counterexample. -/
def feats9 : List (List ℚ) := List.replicate 9 [0]

/-- Oracle for the C1 counterexample, consistent with identical rows: every
centroid sits at the same point (so every centroid distance is 0; the dist
field is the exact euclidean metric for these one-dimensional centers).
KMeans with 3 clusters splits the rows 0,1,2,0,1,2,...; with 2 clusters it
returns a 4/5 split, large enough for the minimum-cluster-size check. -/
def oracleC1 : Oracles :=
  ⟨id,
   fun k _ =>
     if k = 3 then ⟨[0, 1, 2, 0, 1, 2, 0, 1, 2], [[0], [0], [0]]⟩
     else ⟨[0, 0, 0, 0, 1, 1, 1, 1, 1], [[0], [0]]⟩,
   fun _ _ => none,
   fun x y => |x.headD 0 - y.headD 0|⟩

/-- C1 counterexample: with a requested count of 3 on nine near-identical
rows, the mean centroid distance is 0, below both thresholds, at the first
clustering and at the 2-cluster retry; yet _cluster_speakers does not
collapse to a single speaker, because after the retry the distance is never
re-checked and the minimum-cluster-size check passes. -/
theorem claim_C1_counterexample :
    avgDist oracleC1.dist (oracleC1.kmeans 3 (oracleC1.scale feats9)).centers < 1 ∧
      avgDist oracleC1.dist (oracleC1.kmeans 2 (oracleC1.scale feats9)).centers < 1 ∧
      (clusterSpeakers oracleC1 3 3 (some 3) feats9).labels ≠
        List.replicate 9 0 := by
  refine ⟨?_, ?_, ?_⟩
  · with_unfolding_all decide
  · with_unfolding_all decide
  · with_unfolding_all decide

/-- C1 amended: the single-speaker collapse by centroid distance happens
exactly when the resolved cluster count is 2 and the mean pairwise centroid
distance is below 1.0; when the count exceeds 2 and the distance is below
2.0 the code only retries with 2 clusters and performs no second distance
check, so near-identical features need not collapse (collapse can then
happen only through the minimum-cluster-size check). -/
theorem claim_C1_theorem (o : Oracles) (maxSp minCS : ℕ) (nSp0 : Option ℕ)
    (features : List (List ℚ)) (h2le : ¬features.length < 2)
    (hnc : min (resolveNSpeakers o maxSp nSp0 features) features.length = 2)
    (hcent : 1 < (o.kmeans 2 (o.scale features)).centers.length)
    (hdist : avgDist o.dist (o.kmeans 2 (o.scale features)).centers < 1) :
    clusterSpeakers o maxSp minCS nSp0 features =
      ⟨List.replicate features.length 0, 1,
        some (resolveNSpeakers o maxSp nSp0 features)⟩ := by
  simp only [clusterSpeakers]
  rw [if_neg h2le, hnc]
  rw [if_pos hcent, if_pos (lt_trans hdist one_lt_two), if_neg (lt_irrefl 2),
    if_pos hdist]

/-- Two rows with a requested count of 2, on which the collapse applies. -/
def feats2 : List (List ℚ) := [[0], [0]]

theorem claim_C1_witness :
    clusterSpeakers oracleC1 3 3 (some 2) feats2 =
      ⟨List.replicate 2 0, 1, some (resolveNSpeakers oracleC1 3 (some 2) feats2)⟩ :=
  claim_C1_theorem oracleC1 3 3 (some 2) feats2
    (by with_unfolding_all decide)
    (by with_unfolding_all decide)
    (by with_unfolding_all decide)
    (by with_unfolding_all decide)

theorem sizeCheck_after (o : Oracles) (minClusterSize : ℕ)
    (scaled : List (List ℚ)) (origLen nClusters : ℕ) (labels : List ℕ)
    (retried : Bool) (after : Option ℕ) :
    (sizeCheckAndFinish o minClusterSize scaled origLen nClusters labels
      retried after).nSpeakersAfter = after := by
  unfold sizeCheckAndFinish
  split
  · split
    · rfl
    · split <;> rfl
  · rfl

/-- C9 amended: the pipeline does keep mutable state across calls: with
automatic detection (n_speakers = None) and at least two feature rows,
_cluster_speakers stores the resolved speaker count into self.n_speakers,
so a second call does not re-estimate and can differ from a freshly
constructed instance on the same input. -/
theorem claim_C9_theorem (o : Oracles) (maxSp minCS : ℕ)
    (features : List (List ℚ)) (h : ¬features.length < 2) :
    (clusterSpeakers o maxSp minCS none features).nSpeakersAfter =
      some (resolveNSpeakers o maxSp none features) := by
  simp only [clusterSpeakers]
  rw [if_neg h]
  repeat' split
  all_goals first
    | rfl
    | apply sizeCheck_after

/-- Six identical rows for the first call of the C9 counterexample. -/
def featsA : List (List ℚ) := List.replicate 6 [1]

/-- Nine identical rows of a second file for the C9 counterexample. -/
def featsB : List (List ℚ) := List.replicate 9 [2]

/-- Oracle for the C9 counterexample: on the six-row file the silhouette
search prefers 2 clusters; on the nine-row file 3 clusters score best (1/2
against 1/10), KMeans returns balanced splits, and all centroids are well
separated (distance is the exact euclidean metric for these
one-dimensional centers). -/
def oracleC9 : Oracles :=
  ⟨id,
   fun k m =>
     if m = featsB then
       if k = 3 then ⟨[0, 0, 0, 1, 1, 1, 2, 2, 2], [[0], [10], [20]]⟩
       else ⟨[0, 0, 0, 0, 0, 1, 1, 1, 1], [[0], [10]]⟩
     else ⟨[0, 0, 0, 1, 1, 1], [[0], [10]]⟩,
   fun m labels =>
     if m = featsB ∧ labels = [0, 0, 0, 1, 1, 1, 2, 2, 2] then some (1/2)
     else some (1/10),
   fun x y => |x.headD 0 - y.headD 0|⟩

/-- C9 counterexample: a first call with n_speakers = None changes the
configuration (n_speakers becomes some value), and a second call on a
different file, using the stored count, produces different labels than a
freshly constructed instance with n_speakers = None on that same file. -/
theorem claim_C9_counterexample :
    (clusterSpeakers oracleC9 3 3 none featsA).nSpeakersAfter ≠ none ∧
      (clusterSpeakers oracleC9 3 3
          (clusterSpeakers oracleC9 3 3 none featsA).nSpeakersAfter featsB).labels ≠
        (clusterSpeakers oracleC9 3 3 none featsB).labels := by
  constructor
  · with_unfolding_all decide
  · with_unfolding_all decide

theorem claim_C9_witness :
    (clusterSpeakers oracleC9 3 3 none featsA).nSpeakersAfter =
      some (resolveNSpeakers oracleC9 3 none featsA) :=
  claim_C9_theorem oracleC9 3 3 featsA (by with_unfolding_all decide)

/-- Well-formedness of the KMeans oracle, as sklearn guarantees: for a
positive cluster count, fit_predict returns one label per sample and every
label is below the cluster count. -/
def KMeansOK (o : Oracles) : Prop :=
  ∀ (k : ℕ) (m : List (List ℚ)), 1 ≤ k →
    (o.kmeans k m).labels.length = m.length ∧
      ∀ lab ∈ (o.kmeans k m).labels, lab < k

/-- Well-formedness of the scaler oracle: StandardScaler keeps the row
count. -/
def ScaleOK (o : Oracles) : Prop := ∀ m, (o.scale m).length = m.length

theorem foldl_fst_pos {f : ℕ × ℚ → ℕ → ℕ × ℚ}
    (hf : ∀ acc n, (f acc n).1 = acc.1 ∨ (f acc n).1 = n) :
    ∀ (l : List ℕ) (acc : ℕ × ℚ), (∀ n ∈ l, 1 ≤ n) → 1 ≤ acc.1 →
      1 ≤ (l.foldl f acc).1 := by
  intro l
  induction l with
  | nil => intro acc _ hacc; exact hacc
  | cons n rest ih =>
    intro acc hl hacc
    rw [List.foldl_cons]
    refine ih (f acc n) (fun m hm => hl m (by simp [hm])) ?_
    rcases hf acc n with h | h
    · rw [h]; exact hacc
    · rw [h]; exact hl n (by simp)

theorem estimateNSpeakers_pos (o : Oracles) (maxSp : ℕ)
    (features : List (List ℚ)) : 1 ≤ estimateNSpeakers o maxSp features := by
  unfold estimateNSpeakers
  split
  · exact le_refl 1
  · dsimp only
    split
    · exact one_le_two
    · refine foldl_fst_pos ?_ _ _ ?_ ?_
      · intro acc n
        by_cases h1 : features.length ≤ n
        · left; simp [h1]
        · by_cases h2 : 1 < n
          · cases hsil : o.silhouette (o.scale features)
              (o.kmeans n (o.scale features)).labels with
            | none => left; simp [h1, h2, hsil]
            | some score =>
              by_cases h3 : acc.2 < score
              · right; simp [h1, h2, hsil, h3]
              · left; simp [h1, h2, hsil, h3]
          · left; simp [h1, h2]
      · intro n hn
        have := List.mem_range'_1.mp hn
        omega
      · exact le_refl 1

theorem resolveNSpeakers_pos (o : Oracles) (maxSp : ℕ) (nSp0 : Option ℕ)
    (features : List (List ℚ)) (hhint : ∀ k, nSp0 = some k → 1 ≤ k) :
    1 ≤ resolveNSpeakers o maxSp nSp0 features := by
  unfold resolveNSpeakers
  dsimp only
  split
  · exact le_trans one_le_two (le_max_left _ _)
  · cases nSp0 with
    | some k => exact hhint k rfl
    | none => exact estimateNSpeakers_pos o maxSp features

theorem median5_mem (v : List ℕ) : median5 v ∈ v ∨ median5 v = 0 := by
  unfold median5
  cases hy : (List.insertionSort (fun a b : ℕ => a ≤ b) v)[2]? with
  | none => right; rfl
  | some y =>
    left
    have hy2 : y ∈ List.insertionSort (fun a b : ℕ => a ≤ b) v :=
      List.getElem?_mem hy
    simpa using (List.perm_insertionSort (fun a b : ℕ => a ≤ b) v).mem_iff.mp hy2

theorem padGet_mem (l : List ℕ) (j : ℤ) : padGet l j ∈ l ∨ padGet l j = 0 := by
  unfold padGet
  split
  · right; rfl
  · cases hy : l[j.toNat]? with
    | none => right; rfl
    | some y => left; simpa [hy] using List.getElem?_mem hy

theorem medianFilter5_length (l : List ℕ) :
    (medianFilter5 l).length = l.length := by
  unfold medianFilter5
  rw [List.length_map, List.length_range]

theorem medianFilter5_mem (l : List ℕ) :
    ∀ x ∈ medianFilter5 l, x ∈ l ∨ x = 0 := by
  intro x hx
  unfold medianFilter5 at hx
  obtain ⟨i, _, hix⟩ := List.mem_map.mp hx
  rcases median5_mem [padGet l ((i : ℤ) - 2), padGet l ((i : ℤ) - 1),
      padGet l (i : ℤ), padGet l ((i : ℤ) + 1), padGet l ((i : ℤ) + 2)]
    with hm | hm
  · rw [hix] at hm
    simp only [List.mem_cons, List.not_mem_nil, or_false] at hm
    rcases hm with h | h | h | h | h <;> (rw [h]; exact padGet_mem l _)
  · rw [hix] at hm
    right
    exact hm

theorem validateAndRefine_spec (o : Oracles) (minCS : ℕ)
    (scaled : List (List ℚ)) (hk : KMeansOK o) :
    ∀ (n : ℕ) (labels : List ℕ), 1 ≤ n → labels.length = scaled.length →
      (∀ lab ∈ labels, lab < n) →
      (validateAndRefine o minCS scaled n labels).1.length = scaled.length ∧
        1 ≤ (validateAndRefine o minCS scaled n labels).2 ∧
        ∀ lab ∈ (validateAndRefine o minCS scaled n labels).1,
          lab < (validateAndRefine o minCS scaled n labels).2 := by
  intro n
  induction n using Nat.strong_induction_on with
  | _ n ih =>
    intro labels hn hlen hlab
    rw [validateAndRefine]
    split
    · split
      · rename_i hfound h2
        have hrec := ih (n - 1) (by omega) (o.kmeans (n - 1) scaled).labels
          (by omega) (hk (n - 1) scaled (by omega)).1
          ((hk (n - 1) scaled (by omega)).2)
        exact hrec
      · refine ⟨by simp, le_refl 1, ?_⟩
        intro lab hl
        rw [List.eq_of_mem_replicate hl]
        exact one_pos
    · exact ⟨hlen, hn, hlab⟩

theorem finish_bound (labels : List ℕ) (bound : ℕ) (h1 : 1 ≤ bound)
    (hlab : ∀ lab ∈ labels, lab < bound) :
    (if 5 < labels.length then medianFilter5 labels else labels).length =
        labels.length ∧
      ∀ lab ∈ (if 5 < labels.length then medianFilter5 labels else labels),
        lab < bound := by
  split
  · refine ⟨medianFilter5_length labels, ?_⟩
    intro lab hl
    rcases medianFilter5_mem labels lab hl with h | h
    · exact hlab lab h
    · omega
  · exact ⟨rfl, hlab⟩

theorem sizeCheck_spec (o : Oracles) (minCS : ℕ) (scaled : List (List ℚ))
    (origLen nClusters : ℕ) (labels : List ℕ) (retried : Bool)
    (after : Option ℕ) (hk : KMeansOK o) (hsc : scaled.length = origLen)
    (hlen : labels.length = origLen) (hn : 1 ≤ nClusters)
    (hlab : ∀ lab ∈ labels, lab < (if retried then 2 else nClusters)) :
    (sizeCheckAndFinish o minCS scaled origLen nClusters labels retried
        after).labels.length = origLen ∧
      1 ≤ (sizeCheckAndFinish o minCS scaled origLen nClusters labels retried
        after).resolved ∧
      ∀ lab ∈ (sizeCheckAndFinish o minCS scaled origLen nClusters labels
        retried after).labels,
        lab < (sizeCheckAndFinish o minCS scaled origLen nClusters labels
          retried after).resolved := by
  have hbound : 1 ≤ (if retried then 2 else nClusters) := by
    split
    · omega
    · exact hn
  unfold sizeCheckAndFinish
  split
  · split
    · rename_i h2
      obtain ⟨hv1, hv2, hv3⟩ := validateAndRefine_spec o minCS scaled hk
        (nClusters - 1) (o.kmeans (nClusters - 1) scaled).labels (by omega)
        (hk (nClusters - 1) scaled (by omega)).1
        ((hk (nClusters - 1) scaled (by omega)).2)
      exact ⟨hv1.trans hsc, hv2, hv3⟩
    · split
      · refine ⟨by simp, le_refl 1, ?_⟩
        intro lab hl
        rw [List.eq_of_mem_replicate hl]
        exact one_pos
      · obtain ⟨hf1, hf2⟩ := finish_bound labels _ hbound hlab
        exact ⟨hf1.trans hlen, hbound, hf2⟩
  · obtain ⟨hf1, hf2⟩ := finish_bound labels _ hbound hlab
    exact ⟨hf1.trans hlen, hbound, hf2⟩

/-- C8 confirmed: for a well-behaved scaler and KMeans oracle (one label per
row, labels below the cluster count) and a positive speaker-count hint when
given, _cluster_speakers returns exactly one label per feature row, and
every label is below the resolved cluster count, including after the median
filter. -/
theorem claim_C8_theorem (o : Oracles) (maxSp minCS : ℕ) (nSp0 : Option ℕ)
    (features : List (List ℚ)) (hk : KMeansOK o) (hs : ScaleOK o)
    (hhint : ∀ k, nSp0 = some k → 1 ≤ k) :
    (clusterSpeakers o maxSp minCS nSp0 features).labels.length =
        features.length ∧
      ∀ lab ∈ (clusterSpeakers o maxSp minCS nSp0 features).labels,
        lab < (clusterSpeakers o maxSp minCS nSp0 features).resolved := by
  simp only [clusterSpeakers]
  by_cases h2 : features.length < 2
  · rw [if_pos h2]
    refine ⟨by simp, ?_⟩
    intro lab hl
    rw [List.eq_of_mem_replicate hl]
    exact one_pos
  · rw [if_neg h2]
    have hnCl : 1 ≤ min (resolveNSpeakers o maxSp nSp0 features) features.length :=
      le_min (resolveNSpeakers_pos o maxSp nSp0 features hhint) (by omega)
    have hscl : (o.scale features).length = features.length := hs features
    repeat' split
    · obtain ⟨hs1, _, hs3⟩ := sizeCheck_spec o minCS (o.scale features)
        features.length (min (resolveNSpeakers o maxSp nSp0 features) features.length)
        (o.kmeans 2 (o.scale features)).labels true
        (some (resolveNSpeakers o maxSp nSp0 features)) hk hscl
        ((hk 2 (o.scale features) one_le_two).1.trans hscl) hnCl
        (by simpa using (hk 2 (o.scale features) one_le_two).2)
      exact ⟨hs1, hs3⟩
    · refine ⟨by simp, ?_⟩
      intro lab hl
      rw [List.eq_of_mem_replicate hl]
      exact one_pos
    · obtain ⟨hs1, _, hs3⟩ := sizeCheck_spec o minCS (o.scale features)
        features.length (min (resolveNSpeakers o maxSp nSp0 features) features.length)
        (o.kmeans (min (resolveNSpeakers o maxSp nSp0 features) features.length)
          (o.scale features)).labels false
        (some (resolveNSpeakers o maxSp nSp0 features)) hk hscl
        ((hk _ (o.scale features) hnCl).1.trans hscl) hnCl
        (by simpa using (hk _ (o.scale features) hnCl).2)
      exact ⟨hs1, hs3⟩
    · obtain ⟨hs1, _, hs3⟩ := sizeCheck_spec o minCS (o.scale features)
        features.length (min (resolveNSpeakers o maxSp nSp0 features) features.length)
        (o.kmeans (min (resolveNSpeakers o maxSp nSp0 features) features.length)
          (o.scale features)).labels false
        (some (resolveNSpeakers o maxSp nSp0 features)) hk hscl
        ((hk _ (o.scale features) hnCl).1.trans hscl) hnCl
        (by simpa using (hk _ (o.scale features) hnCl).2)
      exact ⟨hs1, hs3⟩
    · obtain ⟨hs1, _, hs3⟩ := sizeCheck_spec o minCS (o.scale features)
        features.length (min (resolveNSpeakers o maxSp nSp0 features) features.length)
        (o.kmeans (min (resolveNSpeakers o maxSp nSp0 features) features.length)
          (o.scale features)).labels false
        (some (resolveNSpeakers o maxSp nSp0 features)) hk hscl
        ((hk _ (o.scale features) hnCl).1.trans hscl) hnCl
        (by simpa using (hk _ (o.scale features) hnCl).2)
      exact ⟨hs1, hs3⟩

/-- Degenerate but well-formed oracle for the C8 witness: every sample gets
label 0. -/
def oracleC8 : Oracles :=
  ⟨id, fun k m => ⟨m.map (fun _ => 0), List.replicate k [0]⟩,
   fun _ _ => none, fun _ _ => 0⟩

theorem claim_C8_witness :
    (clusterSpeakers oracleC8 3 3 none feats2).labels.length = feats2.length ∧
      ∀ lab ∈ (clusterSpeakers oracleC8 3 3 none feats2).labels,
        lab < (clusterSpeakers oracleC8 3 3 none feats2).resolved :=
  claim_C8_theorem oracleC8 3 3 none feats2
    (by
      intro k m h1
      refine ⟨by simp [oracleC8], ?_⟩
      intro lab hl
      simp only [oracleC8, List.mem_map] at hl
      obtain ⟨a, _, hlab⟩ := hl
      omega)
    (fun m => rfl)
    (fun k h => Option.noConfusion h)

end PA2
